import Mathlib

/-!
# Verification of the spreadsheet-to-record reconciliation engine

Shallow embedding of the candidate-upload pipeline of the job-candidate
management server (the `POST /api/candidates/upload` handler): embedded-image
extraction with magic-byte format detection and per-row conflict resolution,
header-row location, column-synonym mapping, the composite-text fallback
extractor, row reconciliation against the record store, and the final batch
insert and report.

Modelling conventions:
* JavaScript cell/field values are modelled by `JSVal` (string, integer
  number, or `undefined`); blank cells are `undefined`.  JS numbers are
  modelled as integers (no claim involves fractional values).
* `Date.now()` (used only to make file names and `createdAt` unique) is
  modelled by a per-image counter, respectively the constant 0.
* The MongoDB collection is a list of `Candidate` records; `findOne {email}`
  is first-match lookup, `updateOne` updates the first match, `insertMany`
  appends.  A thrown `insertMany` error (the only store write that the
  handler's `try` wraps after row processing) is modelled by the
  `insertFails` input flag: control then reaches the `catch` handler, which
  responds 500 and performs no file cleanup.
* String operations (`toLowerCase`, `trim`, `includes`, `JSON.stringify`,
  `Number(...)`) are modelled on ASCII data, which is all the claims use.
-/

/-- A JavaScript value as it flows through the upload handler: a string, a
(numeric) cell value, or `undefined`.  Numbers are modelled as integers. -/
inductive JSVal where
  | str (s : String)
  | num (n : Int)
  | undef
deriving DecidableEq, Repr

/-- JS truthiness: `''`, `0` and `undefined` are falsy. -/
def jsTruthy : JSVal → Bool
  | .str s => decide (s ≠ "")
  | .num n => decide (n ≠ 0)
  | .undef => false

/-- JS `a || b`: the first operand if truthy, otherwise the second. -/
def jsOr (a b : JSVal) : JSVal := if jsTruthy a then a else b

/-- JS `String(v)` (template-literal coercion). -/
def jsToString : JSVal → String
  | .str s => s
  | .num n => toString n
  | .undef => "undefined"

/-- JS whitespace (ASCII part of `\s`). -/
def isJsWs (c : Char) : Bool :=
  c = ' ' || c = '\t' || c = '\n' || c = '\r' || c = '\x0b' || c = '\x0c'

/-- JS `String.prototype.trim` on ASCII whitespace. -/
def jsTrim (s : String) : String :=
  String.mk (((s.toList.dropWhile isJsWs).reverse.dropWhile isJsWs).reverse)

/-- Decimal value of a digit list. -/
def digitsToNat (l : List Char) : Nat :=
  l.foldl (fun a c => a * 10 + (c.toNat - 48)) 0

/-- JS `Number(v)`, restricted to the integer-literal strings the claims
exercise: `undefined` and non-numeric strings give `none` (NaN), the empty or
all-whitespace string gives 0, digit strings parse.  (JS additionally accepts
signs, decimals, exponents and hex, none of which the verified claims use.) -/
def jsToNumber : JSVal → Option Int
  | .num n => some n
  | .undef => none
  | .str s =>
      let t := (jsTrim s).toList
      if t = [] then some 0
      else if t.all Char.isDigit then some (Int.ofNat (digitsToNat t))
      else none

/-- ASCII lower-casing of a string (JS `toLowerCase` on ASCII input). -/
def strLower (s : String) : String := String.mk (s.toList.map Char.toLower)

/-- Does `needle` occur as a leading segment of `hay`? -/
def listHasInit : List Char → List Char → Bool
  | [], _ => true
  | _ :: _, [] => false
  | a :: as, b :: bs => if a = b then listHasInit as bs else false

/-- Does `needle` occur as a contiguous segment anywhere in `hay`? -/
def listHasSub (needle : List Char) : List Char → Bool
  | [] => listHasInit needle []
  | b :: bs => listHasInit needle (b :: bs) || listHasSub needle bs

/-- JS `s.includes(sub)`. -/
def strIncludes (s sub : String) : Bool := listHasSub sub.toList s.toList

/-- Case-insensitive `listHasInit`: `needle` is given in lowercase. -/
def listHasInitCI : List Char → List Char → Bool
  | [], _ => true
  | _ :: _, [] => false
  | a :: as, b :: bs => if a = b.toLower then listHasInitCI as bs else false

/-- Leftmost-match scan: try the matcher at every start position, left to
right, and return the first success (JS regex start-position search). -/
def scanFirst {α : Type} (f : List Char → Option α) : List Char → Option α
  | [] => f []
  | b :: bs =>
      match f (b :: bs) with
      | some m => some m
      | none => scanFirst f bs

/-- Character class `[0-9\-\s]` of the phone pattern. -/
def phoneClass (c : Char) : Bool := c.isDigit || c = '-' || isJsWs c

/-- Match `[0-9][0-9\-\s]{8,15}` at the head of the input (greedy, as the JS
regex engine: up to 15 class characters, at least 8 required). -/
def phoneDigitStart : List Char → Option (List Char)
  | [] => none
  | c :: rest =>
      if c.isDigit then
        let run := rest.takeWhile phoneClass
        if 8 ≤ run.length then some (c :: run.take 15) else none
      else none

/-- Match `\+?[0-9][0-9\-\s]{8,15}` at the head of the input; the optional
plus is tried greedily first, as in the JS engine. -/
def phoneMatchAt (cs : List Char) : Option (List Char) :=
  match cs with
  | '+' :: rest =>
      (match phoneDigitStart rest with
       | some m => some ('+' :: m)
       | none => phoneDigitStart cs)
  | _ => phoneDigitStart cs

/-- First (leftmost) match of `/\+?[0-9][0-9\-\s]{8,15}/` in `s`. -/
def firstPhoneMatch (s : String) : Option String :=
  (scanFirst phoneMatchAt s.toList).map (fun l => String.mk l)

/-- Character class `[a-zA-Z0-9._%+-]` (email local part). -/
def emailLocalCls (c : Char) : Bool :=
  c.isAlpha || c.isDigit || c = '.' || c = '_' || c = '%' || c = '+' || c = '-'

/-- Character class `[a-zA-Z0-9.-]` (email domain part). -/
def emailDomCls (c : Char) : Bool := c.isAlpha || c.isDigit || c = '.' || c = '-'

/-- Backtracking search for `\.[a-zA-Z]{2,}` after the greedy domain run:
`full` is the text after `@`; try the split point `k` (length taken by
`[a-zA-Z0-9.-]+`) from the greedy maximum downwards. -/
def emailDomDesc (full : List Char) : Nat → Option (List Char)
  | 0 => none
  | k + 1 =>
      if full.get? (k + 1) = some '.' then
        let letters := (full.drop (k + 2)).takeWhile Char.isAlpha
        if 2 ≤ letters.length then some (full.take (k + 1) ++ '.' :: letters)
        else emailDomDesc full k
      else emailDomDesc full k

/-- Match `[a-zA-Z0-9.-]+\.[a-zA-Z]{2,}` at the head of `full`. -/
def emailAfterAt (full : List Char) : Option (List Char) :=
  emailDomDesc full (full.takeWhile emailDomCls).length

/-- Match the whole email pattern at the head of the input. -/
def emailMatchAt (cs : List Char) : Option (List Char) :=
  let lp := cs.takeWhile emailLocalCls
  if lp.length = 0 then none
  else
    match cs.drop lp.length with
    | '@' :: rest => (emailAfterAt rest).map (fun d => lp ++ '@' :: d)
    | _ => none

/-- First (leftmost) match of
`/[a-zA-Z0-9._%+-]+@[a-zA-Z0-9.-]+\.[a-zA-Z]{2,}/` in `s`. -/
def firstEmailMatch (s : String) : Option String :=
  (scanFirst emailMatchAt s.toList).map (fun l => String.mk l)

/-- The terminator alternatives of the name pattern, lowercase. -/
def nameAltList : List (List Char) :=
  [String.toList "age", String.toList "location", String.toList "university",
   String.toList "degree"]

/-- Can the tail `\s*(?:Age|Location|University|Degree|$)` of the name regex
match at this position?  The `\s*` can only be followed by an alternative at
its greedy maximum (none of the alternatives starts with whitespace), or run
to the end of the input for `$`. -/
def nameAfterOk (l : List Char) : Bool :=
  let l2 := l.dropWhile isJsWs
  l2.isEmpty || nameAltList.any (fun a => listHasInitCI a l2)

/-- The lazy group `(.*?)`: the shortest text whose continuation satisfies
`nameAfterOk` (such a split always exists: the end of input qualifies). -/
def nameCaptureFrom : List Char → List Char
  | [] => []
  | c :: rest => if nameAfterOk (c :: rest) then [] else c :: nameCaptureFrom rest

/-- Match `Name:\s*(.*?)\s*(?:Age|Location|University|Degree|$)` (case
insensitive) at the head of the input, returning the captured group.  The
leading `\s*` is greedy and its maximum always extends to a full match, so
the capture starts after the whitespace run. -/
def nameMatchAt (cs : List Char) : Option (List Char) :=
  if listHasInitCI (String.toList "name:") cs then
    some (nameCaptureFrom ((cs.drop 5).dropWhile isJsWs))
  else none

/-- Captured group of the first match of the name pattern in `s`. -/
def firstNameCapture (s : String) : Option String :=
  (scanFirst nameMatchAt s.toList).map (fun l => String.mk l)

/-- Match `Age:\s*([\d.]+)` (case insensitive) at the head of the input,
returning the captured digits. -/
def ageMatchAt (cs : List Char) : Option (List Char) :=
  if listHasInitCI (String.toList "age:") cs then
    let run := ((cs.drop 4).dropWhile isJsWs).takeWhile (fun c => c.isDigit || c = '.')
    if run.isEmpty then none else some run
  else none

/-- Captured group of the first match of `/Age:\s*([\d.]+)/i` in `s`. -/
def firstAgeCapture (s : String) : Option String :=
  (scanFirst ageMatchAt s.toList).map (fun l => String.mk l)

/-! ## Item construction and field mapping (upload handler, rows loop) -/

/-- JS object property assignment `item[k] = v` on an insertion-ordered
property list: an existing key keeps its position and gets the new value, a
new key is appended. -/
def setProp (item : List (String × JSVal)) (k : String) (v : JSVal) :
    List (String × JSVal) :=
  if item.any (fun p => decide (p.1 = k)) then
    item.map (fun p => if p.1 = k then (k, v) else p)
  else item ++ [(k, v)]

/-- JS property read `item[k]`, `undefined` when absent. -/
def getProp (item : List (String × JSVal)) (k : String) : JSVal :=
  ((item.find? (fun p => decide (p.1 = k))).map (fun p => p.2)).getD JSVal.undef

/-- `rowData.forEach((val, idx) => { if (headers[idx]) item[headers[idx]] = val })`. -/
def buildItemAux (headers : List String) :
    List (String × JSVal) → Nat → List JSVal → List (String × JSVal)
  | item, _, [] => item
  | item, idx, v :: vs =>
      let h := headers.getD idx ""
      buildItemAux headers (if h = "" then item else setProp item h v) (idx + 1) vs

/-- Map a raw row to a JS object through the located (normalized) headers. -/
def buildItem (headers : List String) (rowData : List JSVal) :
    List (String × JSVal) :=
  buildItemAux headers [] 0 rowData

/-- The per-row candidate draft: the five fields the handler recovers before
validation (`let name = ...` through `let age = ...`). -/
structure Draft where
  name : JSVal
  email : JSVal
  phone : JSVal
  exp : JSVal
  age : JSVal
deriving DecidableEq, Repr

/-- The synonym chains of the upload handler (`item.name || item.candidate ||
...` and so on; headers are already normalized). -/
def mapSynonyms (item : List (String × JSVal)) : Draft :=
  { name := jsOr (getProp item "name") (jsOr (getProp item "candidate")
      (jsOr (getProp item "fullname") (jsOr (getProp item "applicantname")
        (getProp item "candidatesname")))),
    email := jsOr (getProp item "email") (jsOr (getProp item "emailaddress")
      (getProp item "eaddress")),
    phone := jsOr (getProp item "phone") (jsOr (getProp item "phonenumber")
      (jsOr (getProp item "contact") (jsOr (getProp item "mobile")
        (getProp item "cell")))),
    exp := jsOr (getProp item "experienceyears") (jsOr (getProp item "yearsofexperience")
      (jsOr (getProp item "experience") (jsOr (getProp item "totalexperience")
        (getProp item "yearsexperience")))),
    age := jsOr (getProp item "age") (jsOr (getProp item "candidateage")
      (getProp item "ageyrs")) }

/-- `rowData.map(c => String(c || '').trim()).join(' ')`. -/
def compositeOf (rowData : List JSVal) : String :=
  String.intercalate " " (rowData.map (fun c => jsTrim (jsToString (jsOr c (JSVal.str "")))))

/-- The deep-parsing fallback block: pattern extraction over the composite
row text, run only when email or phone is still missing and the text has a
colon; each match fills only a still-absent field (the name additionally
overrides an implausibly long mapped value). -/
def applyFallback (d : Draft) (composite : String) : Draft :=
  if ((!jsTruthy d.email || !jsTruthy d.phone) && strIncludes composite ":") then
    let email := match firstEmailMatch composite with
      | some m => if !jsTruthy d.email then JSVal.str m else d.email
      | none => d.email
    let phone := match firstPhoneMatch composite with
      | some m => if !jsTruthy d.phone then JSVal.str (jsTrim m) else d.phone
      | none => d.phone
    let name := match firstNameCapture composite with
      | some m =>
          if (!jsTruthy d.name || decide (50 < (jsToString d.name).length)) then
            JSVal.str (jsTrim m)
          else d.name
      | none => d.name
    let age := match firstAgeCapture composite with
      | some m => if !jsTruthy d.age then JSVal.str m else d.age
      | none => d.age
    { name := name, email := email, phone := phone, exp := d.exp, age := age }
  else d

/-- The draft a data row yields: synonym mapping, then the fallback block. -/
def draftOfRow (headers : List String) (rowData : List JSVal) : Draft :=
  applyFallback (mapSynonyms (buildItem headers rowData)) (compositeOf rowData)

/-! ## JSON.stringify (used by the boilerplate noise filter) -/

/-- JSON string escaping for the characters the claims exercise. -/
def jsonEscapeChar (c : Char) : String :=
  if c = '"' then "\\\"" else if c = '\\' then "\\\\" else String.mk [c]

/-- Escape a string for a JSON literal. -/
def jsonEscape (s : String) : String := String.join (s.toList.map jsonEscapeChar)

/-- Render one property value; `undefined`-valued properties are dropped by
`JSON.stringify`. -/
def jsvalJson : JSVal → Option String
  | .str s => some ("\"" ++ jsonEscape s ++ "\"")
  | .num n => some (toString n)
  | .undef => none

/-- `JSON.stringify(item)` for a flat object with insertion-ordered keys. -/
def jsonStringify (item : List (String × JSVal)) : String :=
  "\x7b" ++ String.intercalate ","
    (item.filterMap (fun p =>
      (jsvalJson p.2).map (fun v => "\"" ++ jsonEscape p.1 ++ "\":" ++ v))) ++ "\x7d"

/-! ## Image extraction (ExcelJS media walk) -/

/-- One embedded workbook image: its byte buffer, the workbook's nominal
format hint, and the 0-indexed sheet row it anchors to
(`Math.floor(image.range.tl.row)` is modelled as the already-floored row). -/
structure MediaItem where
  buffer : List Nat
  extension : String
  row : Nat
deriving DecidableEq, Repr

/-- Extraction state: the stored blobs (web path, bytes), the row-to-path
image map, and a counter standing in for `Date.now()` in file names. -/
structure ExtractState where
  sink : List (String × List Nat)
  imageMap : List (Nat × String)
  counter : Nat
deriving DecidableEq, Repr

/-- Buffer signature detection (magic numbers): `89 50 4E 47` is png,
`FF D8 FF` is jpg, `47 49 46` is gif, anything else keeps the hint. -/
def detectExtension (buffer : List Nat) (hint : String) : String :=
  if buffer[0]? = some 0x89 ∧ buffer[1]? = some 0x50 ∧
     buffer[2]? = some 0x4E ∧ buffer[3]? = some 0x47 then "png"
  else if buffer[0]? = some 0xFF ∧ buffer[1]? = some 0xD8 ∧
          buffer[2]? = some 0xFF then "jpg"
  else if buffer[0]? = some 0x47 ∧ buffer[1]? = some 0x49 ∧
          buffer[2]? = some 0x46 then "gif"
  else hint

/-- The web path `/uploads/candidates/photo-${Date.now()}-${row}.${extension}`
recorded in the image map (the stored file resolves to the same object). -/
def imageWebPath (counter row : Nat) (ext : String) : String :=
  "/uploads/candidates/photo-" ++ toString counter ++ "-" ++ toString row ++ "." ++ ext

/-- Assoc-list lookup for the image map. -/
def lookupAssoc (m : List (Nat × String)) (k : Nat) : Option String :=
  ((m.find? (fun p => decide (p.1 = k))).map (fun p => p.2))

/-- Assoc-list update `imageMap[row] = path`. -/
def setAssoc (m : List (Nat × String)) (k : Nat) (v : String) : List (Nat × String) :=
  if m.any (fun p => decide (p.1 = k)) then
    m.map (fun p => if p.1 = k then (k, v) else p)
  else m ++ [(k, v)]

/-- `fs.statSync(...).size` of a stored blob (entries recorded in the image
map are always present in the sink). -/
def sinkSize (sink : List (String × List Nat)) (p : String) : Nat :=
  (((sink.find? (fun f => decide (f.1 = p))).map (fun f => f.2.length))).getD 0

/-- `fs.unlinkSync` of a stored blob (paths are unique by counter). -/
def sinkErase (sink : List (String × List Nat)) (p : String) :
    List (String × List Nat) :=
  sink.filter (fun f => !decide (f.1 = p))

/-- One iteration of `exSheet.getImages().forEach(...)`: detect the true
format, skip emf/wmf silently, and resolve a per-row conflict by keeping the
image with the larger byte buffer (deleting the smaller stored blob). -/
def extractStep (st : ExtractState) (img : MediaItem) : ExtractState :=
  let extension := detectExtension img.buffer img.extension
  if strLower extension = "emf" ∨ strLower extension = "wmf" then
    { st with counter := st.counter + 1 }
  else
    let p := imageWebPath st.counter img.row extension
    match lookupAssoc st.imageMap img.row with
    | some existingPath =>
        if img.buffer.length ≤ sinkSize st.sink existingPath then
          { st with counter := st.counter + 1 }
        else
          { sink := sinkErase st.sink existingPath ++ [(p, img.buffer)],
            imageMap := setAssoc st.imageMap img.row p,
            counter := st.counter + 1 }
    | none =>
        { sink := st.sink ++ [(p, img.buffer)],
          imageMap := setAssoc st.imageMap img.row p,
          counter := st.counter + 1 }

/-- The whole image-extraction walk over the workbook's media list. -/
def extractImages (media : List MediaItem) : ExtractState :=
  media.foldl extractStep { sink := [], imageMap := [], counter := 0 }

/-! ## Header locator -/

/-- Keywords that identify the header row. -/
def keywords : List String :=
  ["name", "email", "phone", "contact", "mobile", "experience", "age"]

/-- Keep only lowercase letters and digits (cells pass through `toLowerCase`
first, so uppercase has already been lowered). -/
def isLowerAlnum (c : Char) : Bool :=
  ('a' ≤ c && c ≤ 'z') || ('0' ≤ c && c ≤ '9')

/-- `String(cell || '').toLowerCase().replace(/[^a-z0-9]/g, '')`. -/
def normalizeCell (v : JSVal) : String :=
  String.mk ((strLower (jsToString (jsOr v (JSVal.str "")))).toList.filter isLowerAlnum)

/-- How many normalized cells of the row contain some keyword. -/
def rowScore (row : List JSVal) : Nat :=
  ((row.map normalizeCell).filter
    (fun cell => keywords.any (fun k => strIncludes cell k))).length

/-- The header scan loop: `for (let i = 0; i < Math.min(rows.length, 20); i++)`,
stopping at the first row with at least 2 keyword matches. -/
def findHeaderRowAux : Nat → List (List JSVal) → Option (Nat × List String)
  | _, [] => none
  | i, row :: rest =>
      if 20 ≤ i then none
      else if 2 ≤ rowScore row then some (i, row.map normalizeCell)
      else findHeaderRowAux (i + 1) rest

/-- Header-row detection over the sheet's rows. -/
def findHeaderRow (rows : List (List JSVal)) : Option (Nat × List String) :=
  findHeaderRowAux 0 rows

/-! ## Candidate records and the row reconciler -/

/-- A candidate record as constructed by the upload handler and stored in the
`candidates` collection.  `photo` is a string (new records always set it, to
`""` when no image is associated); an absent photo field on a pre-existing
record is modelled by `""`, which is equally falsy in the duplicate-merge
check.  `createdAt` (a wall-clock date) is modelled by 0. -/
structure Candidate where
  name : JSVal
  email : JSVal
  phone : String
  experience_years : Int
  previous_experience : List JSVal
  age : Int
  photo : String
  status : String
  createdBy : String
  createdAt : Nat
deriving DecidableEq, Repr

/-- An entry of the handler's `processed` array: either a freshly constructed
candidate or, in the duplicate-merge branch, `{...existing, photo, updated:
true}` (the `updated` flag is dropped; it is not read anywhere). -/
inductive Staged where
  | newRec (c : Candidate)
  | mergedRec (existing : Candidate) (photo : String)
deriving DecidableEq, Repr

/-- The record an entry of `processed` contributes to `insertMany`. -/
def stagedToRecord : Staged → Candidate
  | .newRec c => c
  | .mergedRec e p => { e with photo := p }

/-- `candidatesCollection.findOne({ email })`: first record with that email. -/
def storeFindByEmail (store : List Candidate) (e : JSVal) : Option Candidate :=
  store.find? (fun c => decide (c.email = e))

/-- `candidatesCollection.updateOne({ email }, { $set: { photo } })`: patch the
photo of the first record with that email. -/
def storeSetPhoto : List Candidate → JSVal → String → List Candidate
  | [], _, _ => []
  | c :: cs, e, p =>
      if c.email = e then { c with photo := p } :: cs
      else c :: storeSetPhoto cs e p

/-- The mutable state of the per-row loop: the collection (updated in place by
merges), the `processed` array, and the `errors` array. -/
structure RowState where
  store : List Candidate
  processed : List Staged
  errors : List String
deriving DecidableEq, Repr

/-- `${name || 'N/A'}` as rendered in the missing-fields error. -/
def foundStr (v : JSVal) : String := jsToString (jsOr v (JSVal.str "N/A"))

/-- The skip message for rows failing critical-field validation. -/
def missingMsg (name email : JSVal) : String :=
  "Skipped: Missing Name/Email. Found: " ++ foundStr name ++ ", " ++ foundStr email

/-- The skip message for duplicate emails. -/
def existsMsg (email : JSVal) : String :=
  "Skipped: Email " ++ jsToString email ++ " already exists"

/-- The candidate object the handler constructs for a new row.
`previous_experience` reads `item.previous_experience || []`; normalized
header names never contain an underscore, so that property is always
`undefined` and the result is always `[]`. -/
def mkCandidate (d : Draft) (sheetRow : Nat) (imap : List (Nat × String))
    (uid : String) : Candidate :=
  { name := d.name,
    email := d.email,
    phone := jsToString d.phone,
    experience_years := (jsToNumber d.exp).getD 0,
    previous_experience := [],
    age := (jsToNumber d.age).getD 0,
    photo := (lookupAssoc imap sheetRow).getD "",
    status := "pending",
    createdBy := uid,
    createdAt := 0 }

/-- One iteration of the `for (const rowData of dataRows)` loop: blank-row
skip, item construction, synonym mapping, fallback extraction, critical-field
validation with the boilerplate noise filters, duplicate-email reconciliation
(photo merge or skip), and staging of a new candidate.  `idx` is the
position of the row in `dataRows` (`dataRows.indexOf(rowData)` under JS
reference equality). -/
def processRow (H : List String) (hIdx : Nat) (imap : List (Nat × String))
    (uid : String) (st : RowState) (idx : Nat) (rowData : List JSVal) : RowState :=
  if rowData.length = 0 then st
  else
    let item := buildItem H rowData
    let d := applyFallback (mapSynonyms item) (compositeOf rowData)
    if (!jsTruthy d.name || (!jsTruthy d.email && !jsTruthy d.phone)) then
      let rowStr := strLower (jsonStringify item)
      if (strIncludes rowStr "bdjobs" || strIncludes rowStr "powered") then st
      else if (decide (0 < st.processed.length) && !jsTruthy d.name && !jsTruthy d.email) then st
      else { st with errors := st.errors ++ [missingMsg d.name d.email] }
    else
      match (if jsTruthy d.email then storeFindByEmail st.store d.email else none) with
      | some existing =>
          match lookupAssoc imap (hIdx + 1 + idx) with
          | some p =>
              if p ≠ "" ∧ existing.photo = "" then
                { store := storeSetPhoto st.store d.email p,
                  processed := st.processed ++ [Staged.mergedRec existing p],
                  errors := st.errors }
              else { st with errors := st.errors ++ [existsMsg d.email] }
          | none => { st with errors := st.errors ++ [existsMsg d.email] }
      | none =>
          { st with processed :=
              st.processed ++ [Staged.newRec (mkCandidate d (hIdx + 1 + idx) imap uid)] }

/-- The whole data-row loop, threading the row index. -/
def processRowsAux (H : List String) (hIdx : Nat) (imap : List (Nat × String))
    (uid : String) : RowState → Nat → List (List JSVal) → RowState
  | st, _, [] => st
  | st, idx, r :: rs =>
      processRowsAux H hIdx imap uid (processRow H hIdx imap uid st idx r) (idx + 1) rs

/-! ## The upload orchestrator -/

/-- The inputs of one upload request that reaches processing: the sheet's
rows, the embedded media, the current candidates collection, the
authenticated uploader's uid, and whether the batch `insertMany` throws. -/
structure UploadInput where
  rows : List (List JSVal)
  media : List MediaItem
  store : List Candidate
  uid : String
  insertFails : Bool
deriving DecidableEq, Repr

/-- The HTTP response of the handler. -/
inductive UploadResponse where
  | badRequest (msg : String)
  | serverError (msg : String)
  | ok (message : String) (added : Nat) (errors : List String)
deriving DecidableEq, Repr

/-- The observable outcome of one upload: the response, the resulting
collection, whether the temporary file was unlinked, the batch passed to
`insertMany`, the final `processed` array, and the image-extraction state
(exposed for the image claims). -/
structure UploadOutcome where
  response : UploadResponse
  store : List Candidate
  fileDeleted : Bool
  insertedBatch : List Candidate
  staged : List Staged
  imageState : ExtractState
deriving DecidableEq, Repr

/-- The 400 message of the header-detection failure branch. -/
def headerErrorMsg : String :=
  "Could not find candidate data headers (Name, Email, etc.) in the Excel file."

/-- The `POST /api/candidates/upload` handler body after the file check:
image extraction, header location (aborting with 400 and unlinking the file
when none is found), the row loop, the single batch insert, file unlink and
report.  When `insertFails` is set and the batch insert is attempted, the
thrown error reaches the `catch` handler: a 500 response and no unlink. -/
def candidatesUpload (inp : UploadInput) : UploadOutcome :=
  let ex := extractImages inp.media
  match findHeaderRow inp.rows with
  | none =>
      { response := .badRequest headerErrorMsg, store := inp.store,
        fileDeleted := true, insertedBatch := [], staged := [], imageState := ex }
  | some (headerRowIndex, headers) =>
      let dataRows := inp.rows.drop (headerRowIndex + 1)
      let fin := processRowsAux headers headerRowIndex ex.imageMap inp.uid
        { store := inp.store, processed := [], errors := [] } 0 dataRows
      if 0 < fin.processed.length then
        if inp.insertFails then
          { response := .serverError "Error processing file", store := fin.store,
            fileDeleted := false, insertedBatch := [], staged := fin.processed,
            imageState := ex }
        else
          { response := .ok "File processed successfully" fin.processed.length fin.errors,
            store := fin.store ++ fin.processed.map stagedToRecord,
            fileDeleted := true, insertedBatch := fin.processed.map stagedToRecord,
            staged := fin.processed, imageState := ex }
      else
        { response := .ok "No valid candidates found in the file" 0 fin.errors,
          store := fin.store, fileDeleted := true, insertedBatch := [],
          staged := fin.processed, imageState := ex }

/-- The `added` count reported to the caller (0 outside the 200 path). -/
def addedOf : UploadResponse → Nat
  | .ok _ a _ => a
  | _ => 0

/-- The `errors` list reported to the caller (empty outside the 200 path). -/
def errorsOf : UploadResponse → List String
  | .ok _ _ es => es
  | _ => []

/-- Did the handler answer with the 500 `catch` path? -/
def isServerError : UploadResponse → Bool
  | .serverError _ => true
  | _ => false

/-! ## Concrete instances used by the claim theorems -/

/-- An existing photoless candidate record (as a prior upload leaves it). -/
def c1Rec : Candidate :=
  { name := JSVal.str "Alice", email := JSVal.str "a@x.cd", phone := "123",
    experience_years := 2, previous_experience := [], age := 30, photo := "",
    status := "pending", createdBy := "u1", createdAt := 0 }

/-- The stored path of the image extracted for sheet row 1 of `c1Input`. -/
def c1Photo : String := "/uploads/candidates/photo-0-1.png"

/-- An upload whose only data row matches `c1Rec` by email and carries an
embedded image anchored at that row's sheet position. -/
def c1Input : UploadInput :=
  { rows := [[JSVal.str "name", JSVal.str "email"],
             [JSVal.str "Alice", JSVal.str "a@x.cd"]],
    media := [{ buffer := [0x89, 0x50, 0x4E, 0x47, 1, 2], extension := "png", row := 1 }],
    store := [c1Rec], uid := "u2", insertFails := false }

/-- An upload whose only data row has a name and a phone but no email. -/
def c2PhoneInput : UploadInput :=
  { rows := [[JSVal.str "name", JSVal.str "phone"],
             [JSVal.str "Bob", JSVal.str "0123456789"]],
    media := [], store := [], uid := "u", insertFails := false }

/-- An upload whose only data row has a name and an email. -/
def c2MailInput : UploadInput :=
  { rows := [[JSVal.str "name", JSVal.str "email"],
             [JSVal.str "Alice", JSVal.str "a@b.cd"]],
    media := [], store := [], uid := "u", insertFails := false }

/-- The composite row text of the fallback-extractor claim. -/
def janeDoeText : String := "Name: Jane Doe Age: 29 Phone: 555-1234"

/-- Headers under which no cell of `c5Row` maps to any candidate field. -/
def c5Headers : List String := ["name", "email", "phone"]

/-- A data row whose only content is the composite text, in a column beyond
the mapped headers. -/
def c5Row : List JSVal := [JSVal.undef, JSVal.undef, JSVal.undef, JSVal.str janeDoeText]

/-- A draft with every field still absent. -/
def draftAllUndef : Draft :=
  { name := JSVal.undef, email := JSVal.undef, phone := JSVal.undef,
    exp := JSVal.undef, age := JSVal.undef }

/-- An upload whose only data row has a name containing "Bdjobs" and neither
email nor phone. -/
def c6Input : UploadInput :=
  { rows := [[JSVal.str "name", JSVal.str "email"], [JSVal.str "Bdjobs Admin"]],
    media := [], store := [], uid := "u", insertFails := false }

/-- A 500-byte embedded image anchored at sheet row 4. -/
def c7Small : MediaItem := { buffer := List.replicate 500 7, extension := "jpg", row := 4 }

/-- A 2000-byte embedded image anchored at sheet row 4. -/
def c7Large : MediaItem := { buffer := List.replicate 2000 7, extension := "jpg", row := 4 }

/-- An upload with one valid row whose batch insert throws. -/
def c9Input : UploadInput :=
  { rows := [[JSVal.str "name", JSVal.str "email"],
             [JSVal.str "Alice", JSVal.str "a@b.cd"]],
    media := [], store := [], uid := "u", insertFails := true }


/-! ## Claim C1: the duplicate-merge branch -/

/-- C1: for an upload row whose email matches an existing photoless record
and which has an associated extracted image, the handler patches the photo of
the stored record and counts the row in `added` — but, contrary to the claim,
the merged record is pushed onto `processed` and therefore IS part of the
`insertMany` batch: the store ends up with a duplicate of the existing record
(in the real store, re-inserting the fetched document with its `_id` makes the
batch insert fail).  This evaluates the handler at such an input. -/
theorem mergedRowIsBatchInserted :
    (candidatesUpload c1Input).staged = [Staged.mergedRec c1Rec c1Photo] ∧
    (candidatesUpload c1Input).insertedBatch = [{ c1Rec with photo := c1Photo }] ∧
    (candidatesUpload c1Input).store =
      [{ c1Rec with photo := c1Photo }, { c1Rec with photo := c1Photo }] ∧
    (candidatesUpload c1Input).response = .ok "File processed successfully" 1 [] := by
  decide

/-! ## Claim C4: header-detection failure aborts the upload -/

/-- C4: when no row in the scan window reaches the keyword threshold, the
upload answers 400 with the headers-not-found message, the store is untouched,
nothing is staged or inserted, and the temporary file is deleted. -/
theorem headerFailureAbortsUpload (inp : UploadInput)
    (h : findHeaderRow inp.rows = none) :
    candidatesUpload inp =
      { response := .badRequest headerErrorMsg, store := inp.store,
        fileDeleted := true, insertedBatch := [], staged := [],
        imageState := extractImages inp.media } := by
  simp only [candidatesUpload, h]

/-- Witness for C4 at a workbook with no header row. -/
theorem headerFailureAbortsUploadWitness :
    findHeaderRow [[JSVal.str "intro"], [JSVal.str "totals"]] = none ∧
    candidatesUpload
        { rows := [[JSVal.str "intro"], [JSVal.str "totals"]], media := [],
          store := [], uid := "u", insertFails := false } =
      { response := .badRequest headerErrorMsg, store := [], fileDeleted := true,
        insertedBatch := [], staged := [],
        imageState := { sink := [], imageMap := [], counter := 0 } } := by
  have h : findHeaderRow [[JSVal.str "intro"], [JSVal.str "totals"]] = none := by decide
  exact ⟨h, headerFailureAbortsUpload _ h⟩

/-! ## Claim C9: temporary-file cleanup -/

/-- C9 counterexample: when the batch insert throws (store failure), control
reaches the `catch` handler, which responds 500 and does NOT delete the
temporary file — contrary to the claim that the file is deleted on store/IO
failure paths. -/
theorem storeFailureSkipsFileCleanup :
    (candidatesUpload c9Input).fileDeleted = false ∧
    (candidatesUpload c9Input).response = .serverError "Error processing file" ∧
    (candidatesUpload c9Input).store = [] := by
  decide

/-- C9 amended: the temporary file is deleted exactly when the request does
not end in the 500 `catch` path — that is, on success and on header-detection
failure, but not on a store failure during the batch insert. -/
theorem fileCleanupUnlessServerError (inp : UploadInput) :
    (candidatesUpload inp).fileDeleted = !isServerError (candidatesUpload inp).response := by
  cases h : findHeaderRow inp.rows with
  | none => simp [candidatesUpload, h, isServerError]
  | some v =>
      obtain ⟨i, hs⟩ := v
      simp only [candidatesUpload, h]
      split
      · split <;> rfl
      · rfl

/-! ## Claim C5: the composite-text fallback on the Jane Doe row -/

/-- C5 counterexample: on a row whose column mapping yields neither email nor
phone and whose composite text is `"Name: Jane Doe Age: 29 Phone: 555-1234"`,
the fallback recovers name and age but NOT the phone: `"555-1234"` is a run
of 8 phone characters and the pattern `\+?[0-9][0-9\-\s]{8,15}` needs at
least 9, so the claim's `phone="555-1234"` is false. -/
theorem fallbackPhonePatternMissesShortPhone :
    jsTruthy (mapSynonyms (buildItem c5Headers c5Row)).email = false ∧
    jsTruthy (mapSynonyms (buildItem c5Headers c5Row)).phone = false ∧
    strIncludes (compositeOf c5Row) janeDoeText = true ∧
    draftOfRow c5Headers c5Row =
      { name := JSVal.str "Jane Doe", email := JSVal.undef, phone := JSVal.undef,
        exp := JSVal.undef, age := JSVal.str "29" } ∧
    (draftOfRow c5Headers c5Row).phone ≠ JSVal.str "555-1234" := by
  decide

/-- C5 amended: for every draft still missing email and phone, running the
fallback over the composite text `"Name: Jane Doe Age: 29 Phone: 555-1234"`
leaves email and phone unchanged (the phone pattern requires a run of 9–16
digits/dashes/spaces and `"555-1234"` has only 8 characters), recovers
name="Jane Doe" when no name was mapped, and recovers age="29" (numerically
29) when no age was mapped. -/
theorem fallbackOnJaneDoeComposite (d : Draft)
    (he : jsTruthy d.email = false) (hp : jsTruthy d.phone = false) :
    (applyFallback d janeDoeText).phone = d.phone ∧
    (applyFallback d janeDoeText).email = d.email ∧
    (jsTruthy d.name = false → (applyFallback d janeDoeText).name = JSVal.str "Jane Doe") ∧
    (jsTruthy d.age = false →
      (applyFallback d janeDoeText).age = JSVal.str "29" ∧
      (jsToNumber (applyFallback d janeDoeText).age).getD 0 = 29) := by
  have hme : firstEmailMatch janeDoeText = none := by decide
  have hmp : firstPhoneMatch janeDoeText = none := by decide
  have hmn : firstNameCapture janeDoeText = some "Jane Doe" := by decide
  have hma : firstAgeCapture janeDoeText = some "29" := by decide
  have hc : strIncludes janeDoeText ":" = true := by decide
  have htrim : jsTrim "Jane Doe" = "Jane Doe" := by decide
  have key : applyFallback d janeDoeText =
      { name := if (!jsTruthy d.name || decide (50 < (jsToString d.name).length)) then
          JSVal.str "Jane Doe" else d.name,
        email := d.email, phone := d.phone, exp := d.exp,
        age := if !jsTruthy d.age then JSVal.str "29" else d.age } := by
    simp only [applyFallback, hme, hmp, hmn, hma, he, hc, htrim, Bool.not_false,
      Bool.true_or, Bool.and_self, if_true]
  rw [key]
  refine ⟨rfl, rfl, fun hn => ?_, fun ha => ⟨?_, ?_⟩⟩
  · simp [hn]
  · simp [ha]
  · simp only [ha, Bool.not_false, if_true]
    decide

/-- Witness for C5 (amended) at the all-absent draft. -/
theorem fallbackOnJaneDoeCompositeWitness :
    (applyFallback draftAllUndef janeDoeText).phone = JSVal.undef ∧
    (applyFallback draftAllUndef janeDoeText).name = JSVal.str "Jane Doe" ∧
    (applyFallback draftAllUndef janeDoeText).age = JSVal.str "29" := by
  have h := fallbackOnJaneDoeComposite draftAllUndef rfl rfl
  exact ⟨h.1, h.2.2.1 rfl, (h.2.2.2 rfl).1⟩

/-! ## Claim C6: rows with a name but no contact field -/

/-- C6 counterexample: a row whose draft has a name but neither email nor
phone is NOT always recorded in `errors`: when the row's serialized fields
contain "bdjobs" (or "powered"), the noise filter skips it silently — here
the upload reports `added = 0` with an EMPTY error list. -/
theorem noiseFilterSkipsNamedRowSilently :
    jsTruthy (draftOfRow ["name", "email"] [JSVal.str "Bdjobs Admin"]).name = true ∧
    jsTruthy (draftOfRow ["name", "email"] [JSVal.str "Bdjobs Admin"]).email = false ∧
    jsTruthy (draftOfRow ["name", "email"] [JSVal.str "Bdjobs Admin"]).phone = false ∧
    candidatesUpload c6Input =
      { response := .ok "No valid candidates found in the file" 0 [], store := [],
        fileDeleted := true, insertedBatch := [], staged := [],
        imageState := { sink := [], imageMap := [], counter := 0 } } := by
  decide

/-- C6 amended: a non-blank row whose draft has a name but neither email nor
phone is skipped and never staged (so `added` does not count it and the store
is untouched); the human-readable error describing the fields found is
appended unless the row's lowercased field JSON contains "bdjobs" or
"powered", in which case the skip is silent. -/
theorem missingContactRowSkipped (H : List String) (hIdx : Nat)
    (imap : List (Nat × String)) (uid : String) (st : RowState) (idx : Nat)
    (r : List JSVal) (hlen : ¬ r.length = 0)
    (hn : jsTruthy (draftOfRow H r).name = true)
    (he : jsTruthy (draftOfRow H r).email = false)
    (hp : jsTruthy (draftOfRow H r).phone = false) :
    processRow H hIdx imap uid st idx r =
      (if (strIncludes (strLower (jsonStringify (buildItem H r))) "bdjobs"
          || strIncludes (strLower (jsonStringify (buildItem H r))) "powered") = true
       then st
       else { st with errors := st.errors ++
          [missingMsg (draftOfRow H r).name (draftOfRow H r).email] }) ∧
    (processRow H hIdx imap uid st idx r).processed = st.processed ∧
    (processRow H hIdx imap uid st idx r).store = st.store := by
  unfold draftOfRow at hn he hp
  have key : processRow H hIdx imap uid st idx r =
      (if (strIncludes (strLower (jsonStringify (buildItem H r))) "bdjobs"
          || strIncludes (strLower (jsonStringify (buildItem H r))) "powered") = true
       then st
       else { st with errors := st.errors ++
          [missingMsg (draftOfRow H r).name (draftOfRow H r).email] }) := by
    simp only [processRow, draftOfRow, if_neg hlen, hn, he, hp, Bool.not_true,
      Bool.not_false, Bool.and_self, Bool.false_or, Bool.and_false, Bool.false_and,
      if_true, if_false, Bool.false_eq_true, decide_True, decide_False]
  refine ⟨key, ?_, ?_⟩ <;> rw [key] <;> split <;> rfl

/-- Witness for C6 (amended) at a plain row with a name only. -/
theorem missingContactRowSkippedWitness :
    (processRow ["name", "email"] 0 [] "u" { store := [], processed := [], errors := [] } 0
        [JSVal.str "Alice"]).errors =
      ["Skipped: Missing Name/Email. Found: Alice, N/A"] ∧
    (processRow ["name", "email"] 0 [] "u" { store := [], processed := [], errors := [] } 0
        [JSVal.str "Alice"]).processed = [] := by
  have h := missingContactRowSkipped ["name", "email"] 0 [] "u"
      { store := [], processed := [], errors := [] } 0 [JSVal.str "Alice"]
      (by decide) (by decide) (by decide) (by decide)
  refine ⟨?_, h.2.1⟩
  rw [h.1]
  decide

/-! ## Claim C8: content-based image-format detection -/

/-- C8: format detection is content-based: a `89 50 4E 47` signature resolves
to png, `FF D8 FF` to jpg, `47 49 46` to gif, and anything else keeps the
workbook's nominal hint; an image with PNG magic bytes but a "jpg" hint is
stored and mapped under a ".png" file name; and an image whose resolved
format is emf or wmf is skipped with no change to the sink or the map (and no
error — the extractor has no error channel). -/
theorem imageFormatDetectionContentBased :
    (∀ (buffer : List Nat) (hint : String),
      ((buffer[0]? = some 0x89 ∧ buffer[1]? = some 0x50 ∧
        buffer[2]? = some 0x4E ∧ buffer[3]? = some 0x47) →
          detectExtension buffer hint = "png") ∧
      ((buffer[0]? = some 0xFF ∧ buffer[1]? = some 0xD8 ∧
        buffer[2]? = some 0xFF) → detectExtension buffer hint = "jpg") ∧
      ((buffer[0]? = some 0x47 ∧ buffer[1]? = some 0x49 ∧
        buffer[2]? = some 0x46) → detectExtension buffer hint = "gif") ∧
      (¬(buffer[0]? = some 0x89 ∧ buffer[1]? = some 0x50 ∧
         buffer[2]? = some 0x4E ∧ buffer[3]? = some 0x47) →
       ¬(buffer[0]? = some 0xFF ∧ buffer[1]? = some 0xD8 ∧
         buffer[2]? = some 0xFF) →
       ¬(buffer[0]? = some 0x47 ∧ buffer[1]? = some 0x49 ∧
         buffer[2]? = some 0x46) → detectExtension buffer hint = hint)) ∧
    (∀ (st : ExtractState) (img : MediaItem),
      img.buffer[0]? = some 0x89 → img.buffer[1]? = some 0x50 →
      img.buffer[2]? = some 0x4E → img.buffer[3]? = some 0x47 →
      img.extension = "jpg" →
      lookupAssoc st.imageMap img.row = none →
      extractStep st img =
        { sink := st.sink ++ [(imageWebPath st.counter img.row "png", img.buffer)],
          imageMap := setAssoc st.imageMap img.row (imageWebPath st.counter img.row "png"),
          counter := st.counter + 1 }) ∧
    (∀ (st : ExtractState) (img : MediaItem),
      (strLower (detectExtension img.buffer img.extension) = "emf" ∨
       strLower (detectExtension img.buffer img.extension) = "wmf") →
      extractStep st img = { st with counter := st.counter + 1 }) := by
  refine ⟨fun buffer hint => ⟨fun h => ?_, fun h => ?_, fun h => ?_, fun h1 h2 h3 => ?_⟩,
    fun st img h0 h1 h2 h3 hext hlk => ?_, fun st img hor => ?_⟩
  · simp only [detectExtension, if_pos h]
  · have hne : ¬(buffer[0]? = some 0x89 ∧ buffer[1]? = some 0x50 ∧
        buffer[2]? = some 0x4E ∧ buffer[3]? = some 0x47) := by
      rintro ⟨h0, -⟩; rw [h.1] at h0; exact absurd h0 (by decide)
    simp only [detectExtension, if_neg hne, if_pos h]
  · have hne1 : ¬(buffer[0]? = some 0x89 ∧ buffer[1]? = some 0x50 ∧
        buffer[2]? = some 0x4E ∧ buffer[3]? = some 0x47) := by
      rintro ⟨h0, -⟩; rw [h.1] at h0; exact absurd h0 (by decide)
    have hne2 : ¬(buffer[0]? = some 0xFF ∧ buffer[1]? = some 0xD8 ∧
        buffer[2]? = some 0xFF) := by
      rintro ⟨h0, -⟩; rw [h.1] at h0; exact absurd h0 (by decide)
    simp only [detectExtension, if_neg hne1, if_neg hne2, if_pos h]
  · simp only [detectExtension, if_neg h1, if_neg h2, if_neg h3]
  · have hdet : detectExtension img.buffer img.extension = "png" := by
      simp [detectExtension, h0, h1, h2, h3]
    have hemf : ¬(strLower "png" = "emf" ∨ strLower "png" = "wmf") := by decide
    simp only [extractStep, hdet, if_neg hemf, hlk]
  · simp only [extractStep, if_pos hor]

/-- Witness for C8: a PNG-magic buffer with a jpg hint is stored as png, and
an emf image is skipped without touching the sink or the map. -/
theorem imageFormatDetectionContentBasedWitness :
    detectExtension [0x89, 0x50, 0x4E, 0x47, 9] "jpg" = "png" ∧
    extractStep { sink := [], imageMap := [], counter := 0 }
        { buffer := [0x89, 0x50, 0x4E, 0x47, 9], extension := "jpg", row := 3 } =
      { sink := [(imageWebPath 0 3 "png", [0x89, 0x50, 0x4E, 0x47, 9])],
        imageMap := [(3, imageWebPath 0 3 "png")], counter := 1 } ∧
    extractStep { sink := [], imageMap := [], counter := 0 }
        { buffer := [1, 2], extension := "emf", row := 0 } =
      { sink := [], imageMap := [], counter := 1 } := by
  refine ⟨(imageFormatDetectionContentBased.1 _ "jpg").1 (by decide), ?_, ?_⟩
  · have h := imageFormatDetectionContentBased.2.1 { sink := [], imageMap := [], counter := 0 }
      { buffer := [0x89, 0x50, 0x4E, 0x47, 9], extension := "jpg", row := 3 }
      (by decide) (by decide) (by decide) (by decide) rfl rfl
    rw [h]
    decide
  · exact imageFormatDetectionContentBased.2.2 _ _ (by decide)

/-! ## Claim C7: per-row image conflicts keep the larger image -/

/-- C7: when two embedded images (neither resolving to emf/wmf) anchor to the
same sheet row, the walk compares byte lengths and only the larger image's
blob remains in the sink, with the row mapped to its path: if the second is
strictly larger it displaces the first (whose blob is deleted); otherwise the
first is kept and the second is never stored. -/
theorem imageRowConflictKeepsLarger (a b : MediaItem) (hrow : b.row = a.row)
    (ha : ¬(strLower (detectExtension a.buffer a.extension) = "emf" ∨
            strLower (detectExtension a.buffer a.extension) = "wmf"))
    (hb : ¬(strLower (detectExtension b.buffer b.extension) = "emf" ∨
            strLower (detectExtension b.buffer b.extension) = "wmf")) :
    (a.buffer.length < b.buffer.length →
      extractImages [a, b] =
        { sink := [(imageWebPath 1 b.row (detectExtension b.buffer b.extension), b.buffer)],
          imageMap := [(a.row, imageWebPath 1 b.row (detectExtension b.buffer b.extension))],
          counter := 2 }) ∧
    (b.buffer.length ≤ a.buffer.length →
      extractImages [a, b] =
        { sink := [(imageWebPath 0 a.row (detectExtension a.buffer a.extension), a.buffer)],
          imageMap := [(a.row, imageWebPath 0 a.row (detectExtension a.buffer a.extension))],
          counter := 2 }) := by
  rw [hrow]
  have e1 : extractStep { sink := [], imageMap := [], counter := 0 } a =
      { sink := [(imageWebPath 0 a.row (detectExtension a.buffer a.extension), a.buffer)],
        imageMap := [(a.row, imageWebPath 0 a.row (detectExtension a.buffer a.extension))],
        counter := 1 } := by
    simp [extractStep, if_neg ha, lookupAssoc, setAssoc]
  have e0 : extractImages [a, b] =
      extractStep (extractStep { sink := [], imageMap := [], counter := 0 } a) b := rfl
  rw [e0, e1]
  have hlk : lookupAssoc [(a.row, imageWebPath 0 a.row (detectExtension a.buffer a.extension))]
      a.row = some (imageWebPath 0 a.row (detectExtension a.buffer a.extension)) := by
    simp [lookupAssoc]
  have hsz : sinkSize [(imageWebPath 0 a.row (detectExtension a.buffer a.extension), a.buffer)]
      (imageWebPath 0 a.row (detectExtension a.buffer a.extension)) = a.buffer.length := by
    simp [sinkSize]
  constructor
  · intro hlen
    have hnle : ¬ b.buffer.length ≤ sinkSize
        [(imageWebPath 0 a.row (detectExtension a.buffer a.extension), a.buffer)]
        (imageWebPath 0 a.row (detectExtension a.buffer a.extension)) := by
      rw [hsz]; omega
    simp [extractStep, if_neg hb, hlk, hnle, sinkErase, setAssoc, hrow]
  · intro hlen
    have hle : b.buffer.length ≤ sinkSize
        [(imageWebPath 0 a.row (detectExtension a.buffer a.extension), a.buffer)]
        (imageWebPath 0 a.row (detectExtension a.buffer a.extension)) := by
      rw [hsz]; exact hlen
    simp [extractStep, if_neg hb, hlk, hle, hrow]

set_option maxRecDepth 40000 in
/-- Witness for C7 at byte lengths 500 and 2000: only the 2000-byte image's
file remains and the row maps to it. -/
theorem imageRowConflictKeepsLargerWitness :
    c7Small.buffer.length < c7Large.buffer.length ∧
    extractImages [c7Small, c7Large] =
      { sink := [(imageWebPath 1 4 "jpg", List.replicate 2000 7)],
        imageMap := [(4, imageWebPath 1 4 "jpg")], counter := 2 } := by
  have h := (imageRowConflictKeepsLarger c7Small c7Large rfl (by decide) (by decide)).1
    (by decide)
  exact ⟨by decide, h⟩

/-! ## Claim C3: the header locator -/

/-- Loop characterization of the header scan: starting the loop counter at
`i`, it returns `(k, hs)` exactly when some row at offset `j` (with
`k = i + j < 20`) is the first to reach score 2, and `hs` is that row's
normalized cells. -/
theorem findHeaderRowAux_some_iff (rs : List (List JSVal)) :
    ∀ (i k : Nat) (hs : List String),
      findHeaderRowAux i rs = some (k, hs) ↔
        ∃ j row, rs.get? j = some row ∧ k = i + j ∧ k < 20 ∧ 2 ≤ rowScore row ∧
          hs = row.map normalizeCell ∧
          ∀ j' row', j' < j → rs.get? j' = some row' → rowScore row' < 2 := by
  induction rs with
  | nil => intro i k hs; simp [findHeaderRowAux]
  | cons r rest ih =>
      intro i k hs
      by_cases h20 : 20 ≤ i
      · simp only [findHeaderRowAux, if_pos h20]
        constructor
        · intro h; exact absurd h (by simp)
        · rintro ⟨j, row, hget, rfl, hk, -⟩
          omega
      · by_cases hscore : 2 ≤ rowScore r
        · simp only [findHeaderRowAux, if_neg h20, if_pos hscore]
          constructor
          · intro h
            obtain ⟨h1, h2⟩ := Prod.mk.injEq .. ▸ Option.some.inj h
            refine ⟨0, r, rfl, by omega, by omega, hscore, h2.symm, ?_⟩
            intro j' row' hj' _
            omega
          · rintro ⟨j, row, hget, rfl, hk, hs2, hhs, hprev⟩
            cases j with
            | zero =>
                obtain rfl : r = row := by simpa using hget
                simp [hhs]
            | succ j' =>
                have := hprev 0 r (Nat.succ_pos _) rfl
                omega
        · simp only [findHeaderRowAux, if_neg h20, if_neg hscore]
          rw [ih (i + 1) k hs]
          constructor
          · rintro ⟨j, row, hget, rfl, hk, hs2, hhs, hprev⟩
            refine ⟨j + 1, row, by simpa using hget, by omega, by omega, hs2, hhs, ?_⟩
            intro j' row' hj' hget'
            cases j' with
            | zero =>
                obtain rfl : r = row' := by simpa using hget'
                omega
            | succ j'' => exact hprev j'' row' (by omega) (by simpa using hget')
          · rintro ⟨j, row, hget, rfl, hk, hs2, hhs, hprev⟩
            cases j with
            | zero =>
                obtain rfl : r = row := by simpa using hget
                omega
            | succ j' =>
                refine ⟨j', row, by simpa using hget, by omega, by omega, hs2, hhs, ?_⟩
                intro j'' row'' hj'' hget''
                exact hprev (j'' + 1) row'' (by omega) (by simpa using hget'')

/-- Loop characterization of the failing scan: no row within the window
reaches score 2. -/
theorem findHeaderRowAux_none_iff (rs : List (List JSVal)) :
    ∀ i : Nat, findHeaderRowAux i rs = none ↔
      ∀ j row, rs.get? j = some row → i + j < 20 → rowScore row < 2 := by
  induction rs with
  | nil => intro i; simp [findHeaderRowAux]
  | cons r rest ih =>
      intro i
      by_cases h20 : 20 ≤ i
      · simp only [findHeaderRowAux, if_pos h20]
        constructor
        · intro _ j row hget hlt; omega
        · intro _; trivial
      · by_cases hscore : 2 ≤ rowScore r
        · simp only [findHeaderRowAux, if_neg h20, if_pos hscore]
          constructor
          · intro h; exact absurd h (by simp)
          · intro h
            have := h 0 r rfl (by omega)
            omega
        · simp only [findHeaderRowAux, if_neg h20, if_neg hscore]
          rw [ih (i + 1)]
          constructor
          · intro h j row hget hlt
            cases j with
            | zero =>
                obtain rfl : r = row := by simpa using hget
                omega
            | succ j' => exact h j' row (by simpa using hget) (by omega)
          · intro h j row hget hlt
            exact h (j + 1) row (by simpa using hget) (by omega)

/-- C3: the header locator scans only the first 20 rows, scores each row by
how many normalized (case-folded, alphanumeric-only) cells contain one of the
keywords {name, email, phone, contact, mobile, experience, age}, and returns
the FIRST (topmost) row whose score reaches 2 together with its normalized
cells as headers; it returns nothing exactly when no row in the 20-row window
reaches the threshold. -/
theorem headerLocatorFirstThresholdRow :
    (∀ (rows : List (List JSVal)) (i : Nat) (hs : List String),
      findHeaderRow rows = some (i, hs) ↔
        (i < 20 ∧ ∃ row, rows.get? i = some row ∧ 2 ≤ rowScore row ∧
          hs = row.map normalizeCell ∧
          ∀ j row', j < i → rows.get? j = some row' → rowScore row' < 2)) ∧
    (∀ rows : List (List JSVal),
      findHeaderRow rows = none ↔
        ∀ j row, rows.get? j = some row → j < 20 → rowScore row < 2) := by
  constructor
  · intro rows i hs
    rw [findHeaderRow, findHeaderRowAux_some_iff]
    constructor
    · rintro ⟨j, row, hget, hk, h20, hs2, hhs, hprev⟩
      obtain rfl : i = j := by omega
      exact ⟨h20, row, hget, hs2, hhs, fun j' row' hj' hget' => hprev j' row' hj' hget'⟩
    · rintro ⟨h20, row, hget, hs2, hhs, hprev⟩
      exact ⟨i, row, hget, by omega, h20, hs2, hhs, fun j' row' hj' hget' =>
        hprev j' row' hj' hget'⟩
  · intro rows
    rw [findHeaderRow, findHeaderRowAux_none_iff]
    constructor
    · intro h j row hget h20
      exact h j row hget (by omega)
    · intro h j row hget hlt
      exact h j row hget (by omega)

/-- Witness for C3: a preamble row scores below the threshold, the earliest
row with two keyword cells is chosen and normalized; without any qualifying
row the scan fails. -/
theorem headerLocatorFirstThresholdRowWitness :
    findHeaderRow [[JSVal.str "intro"], [JSVal.str "Name", JSVal.str "E-mail"]] =
      some (1, ["name", "email"]) ∧
    findHeaderRow [[JSVal.str "intro"]] = none := by
  constructor
  · apply (headerLocatorFirstThresholdRow.1 _ 1 _).mpr
    refine ⟨by omega, [JSVal.str "Name", JSVal.str "E-mail"], rfl, by decide, by decide, ?_⟩
    intro j row' hj hget
    interval_cases j
    obtain rfl : [JSVal.str "intro"] = row' := by simpa using hget
    decide
  · apply (headerLocatorFirstThresholdRow.2 _).mpr
    intro j row hget h20
    cases j with
    | zero =>
        obtain rfl : [JSVal.str "intro"] = row := by simpa using hget
        decide
    | succ j' => simp at hget

/-! ## Claim C10: invariants of staged new candidates -/

/-- A staged entry added by one row step is either inherited or the row's
freshly constructed candidate. -/
theorem processRow_newRec_mem (H : List String) (hIdx : Nat) (imap : List (Nat × String))
    (uid : String) (st : RowState) (idx : Nat) (r : List JSVal) (c : Candidate)
    (h : Staged.newRec c ∈ (processRow H hIdx imap uid st idx r).processed) :
    Staged.newRec c ∈ st.processed ∨
      c = mkCandidate (draftOfRow H r) (hIdx + 1 + idx) imap uid := by
  simp only [processRow] at h
  split at h
  · exact Or.inl h
  · split at h
    · split at h
      · exact Or.inl h
      · split at h
        · exact Or.inl h
        · exact Or.inl h
    · split at h
      · split at h
        · split at h
          · rcases List.mem_append.mp h with h1 | h1
            · exact Or.inl h1
            · simp at h1
          · exact Or.inl h
        · exact Or.inl h
      · rcases List.mem_append.mp h with h1 | h1
        · exact Or.inl h1
        · simp only [List.mem_singleton, Staged.newRec.injEq] at h1
          exact Or.inr h1

/-- C10: every new candidate staged by the row loop is built by the handler's
constructor from some row's draft and sheet position, and that constructor
gives status "pending", `createdBy` the uploader's uid, a string phone
(`String(phone)`), experience/age 0 when the source value is absent or
non-numeric (`Number(x) || 0` is NaN there), and photo `""` — a falsy string,
not an absent field — when the image map has no entry for the row's sheet
position, which is exactly what the later duplicate-merge check `!existing.photo`
treats as having no photo. -/
theorem stagedNewCandidateInvariant :
    (∀ (H : List String) (hIdx : Nat) (imap : List (Nat × String)) (uid : String)
        (rs : List (List JSVal)) (idx : Nat) (st : RowState) (c : Candidate),
      Staged.newRec c ∈ (processRowsAux H hIdx imap uid st idx rs).processed →
      Staged.newRec c ∈ st.processed ∨
        ∃ i row, c = mkCandidate (draftOfRow H row) (hIdx + 1 + i) imap uid) ∧
    (∀ (d : Draft) (sheetRow : Nat) (imap : List (Nat × String)) (uid : String),
      (mkCandidate d sheetRow imap uid).status = "pending" ∧
      (mkCandidate d sheetRow imap uid).createdBy = uid ∧
      (mkCandidate d sheetRow imap uid).phone = jsToString d.phone ∧
      (jsToNumber d.exp = none → (mkCandidate d sheetRow imap uid).experience_years = 0) ∧
      (jsToNumber d.age = none → (mkCandidate d sheetRow imap uid).age = 0) ∧
      (lookupAssoc imap sheetRow = none →
        (mkCandidate d sheetRow imap uid).photo = "" ∧
        jsTruthy (JSVal.str (mkCandidate d sheetRow imap uid).photo) = false)) := by
  constructor
  · intro H hIdx imap uid rs
    induction rs with
    | nil => intro idx st c h; exact Or.inl h
    | cons r rest ih =>
        intro idx st c h
        simp only [processRowsAux] at h
        rcases ih (idx + 1) _ c h with h1 | h1
        · rcases processRow_newRec_mem H hIdx imap uid st idx r c h1 with h2 | h2
          · exact Or.inl h2
          · exact Or.inr ⟨idx, r, h2⟩
        · exact Or.inr h1
  · intro d sheetRow imap uid
    refine ⟨rfl, rfl, rfl, fun h => ?_, fun h => ?_, fun h => ?_⟩
    · simp [mkCandidate, h]
    · simp [mkCandidate, h]
    · refine ⟨?_, ?_⟩
      · simp [mkCandidate, h]
      · simp [mkCandidate, h, jsTruthy]

/-- Witness for C10: the one staged candidate of a single-row upload is the
constructor applied to that row's draft, and the constructor at an all-absent
draft with no image gives zero experience and an empty photo. -/
theorem stagedNewCandidateInvariantWitness :
    (∃ i row, mkCandidate (draftOfRow ["name", "email"] [JSVal.str "Alice", JSVal.str "a@b.cd"])
        (0 + 1 + 0) [] "u" = mkCandidate (draftOfRow ["name", "email"] row) (0 + 1 + i) [] "u") ∧
    (mkCandidate draftAllUndef 5 [] "u").status = "pending" ∧
    (mkCandidate draftAllUndef 5 [] "u").experience_years = 0 ∧
    (mkCandidate draftAllUndef 5 [] "u").photo = "" := by
  have h1 := stagedNewCandidateInvariant.1 ["name", "email"] 0 [] "u"
      [[JSVal.str "Alice", JSVal.str "a@b.cd"]] 0 { store := [], processed := [], errors := [] }
      (mkCandidate (draftOfRow ["name", "email"] [JSVal.str "Alice", JSVal.str "a@b.cd"])
        (0 + 1 + 0) [] "u")
      (by decide)
  have h2 := stagedNewCandidateInvariant.2 draftAllUndef 5 [] "u"
  exact ⟨h1.resolve_left (by decide), h2.1, h2.2.2.2.1 rfl, (h2.2.2.2.2.2 rfl).1⟩

/-! ## Claim C2: idempotence of re-upload -/

/-- A row failing critical-field validation changes neither the store nor
the staged list; it can only append an error. -/
theorem processRow_val_branch (H : List String) (hIdx : Nat) (imap : List (Nat × String))
    (uid : String) (st : RowState) (idx : Nat) (r : List JSVal)
    (hval : (!jsTruthy (draftOfRow H r).name ||
      (!jsTruthy (draftOfRow H r).email && !jsTruthy (draftOfRow H r).phone)) = true) :
    (processRow H hIdx imap uid st idx r).store = st.store ∧
    (processRow H hIdx imap uid st idx r).processed = st.processed ∧
    ∃ t, (processRow H hIdx imap uid st idx r).errors = st.errors ++ t := by
  unfold draftOfRow at hval
  by_cases hl : r.length = 0
  · simp only [processRow, if_pos hl]
    exact ⟨by trivial, by trivial, [], by simp⟩
  · simp only [processRow, if_neg hl, hval, eq_self_iff_true, if_true]
    split
    · exact ⟨by trivial, by trivial, [], by simp⟩
    · split
      · exact ⟨by trivial, by trivial, [], by simp⟩
      · exact ⟨by trivial, by trivial, [_], by rfl⟩

/-- A blank row is skipped outright. -/
theorem processRow_blank (H : List String) (hIdx : Nat) (imap : List (Nat × String))
    (uid : String) (st : RowState) (idx : Nat) (r : List JSVal)
    (hlen : r.length = 0) : processRow H hIdx imap uid st idx r = st := by
  simp only [processRow, if_pos hlen]

/-- A validated row whose email lookup misses stages exactly the handler's
new candidate object. -/
theorem processRow_insert (H : List String) (hIdx : Nat) (imap : List (Nat × String))
    (uid : String) (st : RowState) (idx : Nat) (r : List JSVal)
    (hlen : ¬ r.length = 0)
    (hval : (!jsTruthy (draftOfRow H r).name ||
      (!jsTruthy (draftOfRow H r).email && !jsTruthy (draftOfRow H r).phone)) = false)
    (hfind : (if jsTruthy (draftOfRow H r).email then
        storeFindByEmail st.store (draftOfRow H r).email else none) = none) :
    processRow H hIdx imap uid st idx r =
      { st with processed := st.processed ++
          [Staged.newRec (mkCandidate (draftOfRow H r) (hIdx + 1 + idx) imap uid)] } := by
  unfold draftOfRow at hval hfind
  simp only [processRow, draftOfRow, if_neg hlen, hval, Bool.false_eq_true, if_false, hfind]

/-- A validated row whose email lookup hits resolves through the
duplicate/merge branch: a photo merge when the row contributes an image and
the existing record has none, otherwise an already-exists skip. -/
theorem processRow_dup (H : List String) (hIdx : Nat) (imap : List (Nat × String))
    (uid : String) (st : RowState) (idx : Nat) (r : List JSVal) (existing : Candidate)
    (hlen : ¬ r.length = 0)
    (hval : (!jsTruthy (draftOfRow H r).name ||
      (!jsTruthy (draftOfRow H r).email && !jsTruthy (draftOfRow H r).phone)) = false)
    (hfind : (if jsTruthy (draftOfRow H r).email then
        storeFindByEmail st.store (draftOfRow H r).email else none) = some existing) :
    processRow H hIdx imap uid st idx r =
      (match lookupAssoc imap (hIdx + 1 + idx) with
       | some p =>
           if p ≠ "" ∧ existing.photo = "" then
             { store := storeSetPhoto st.store (draftOfRow H r).email p,
               processed := st.processed ++ [Staged.mergedRec existing p],
               errors := st.errors }
           else { st with errors := st.errors ++ [existsMsg (draftOfRow H r).email] }
       | none => { st with errors := st.errors ++ [existsMsg (draftOfRow H r).email] }) := by
  unfold draftOfRow at hval hfind
  simp only [processRow, draftOfRow, if_neg hlen, hval, Bool.false_eq_true, if_false, hfind]

/-- One row step only ever appends to `processed`. -/
theorem processRow_processed_mono (H : List String) (hIdx : Nat) (imap : List (Nat × String))
    (uid : String) (st : RowState) (idx : Nat) (r : List JSVal) :
    ∃ t, (processRow H hIdx imap uid st idx r).processed = st.processed ++ t := by
  simp only [processRow]
  split
  · exact ⟨[], by simp⟩
  · split
    · split
      · exact ⟨[], by simp⟩
      · split
        · exact ⟨[], by simp⟩
        · exact ⟨[], by simp⟩
    · split
      · split
        · split
          · exact ⟨[_], by rfl⟩
          · exact ⟨[], by simp⟩
        · exact ⟨[], by simp⟩
      · exact ⟨[_], by rfl⟩

/-- One row step only ever appends to `errors`. -/
theorem processRow_errors_mono (H : List String) (hIdx : Nat) (imap : List (Nat × String))
    (uid : String) (st : RowState) (idx : Nat) (r : List JSVal) :
    ∃ t, (processRow H hIdx imap uid st idx r).errors = st.errors ++ t := by
  simp only [processRow]
  split
  · exact ⟨[], by simp⟩
  · split
    · split
      · exact ⟨[], by simp⟩
      · split
        · exact ⟨[], by simp⟩
        · exact ⟨[_], by rfl⟩
    · split
      · split
        · split
          · exact ⟨[], by simp⟩
          · exact ⟨[_], by rfl⟩
        · exact ⟨[_], by rfl⟩
      · exact ⟨[], by simp⟩

/-- The row loop only ever appends to `processed`. -/
theorem processRowsAux_processed_mono (H : List String) (hIdx : Nat)
    (imap : List (Nat × String)) (uid : String) :
    ∀ (rs : List (List JSVal)) (idx : Nat) (st : RowState),
      ∃ t, (processRowsAux H hIdx imap uid st idx rs).processed = st.processed ++ t := by
  intro rs
  induction rs with
  | nil => intro idx st; exact ⟨[], by simp [processRowsAux]⟩
  | cons r rest ih =>
      intro idx st
      obtain ⟨t1, h1⟩ := processRow_processed_mono H hIdx imap uid st idx r
      obtain ⟨t2, h2⟩ := ih (idx + 1) (processRow H hIdx imap uid st idx r)
      refine ⟨t1 ++ t2, ?_⟩
      simp only [processRowsAux]
      rw [h2, h1, List.append_assoc]

/-- The row loop only ever appends to `errors`. -/
theorem processRowsAux_errors_mono (H : List String) (hIdx : Nat)
    (imap : List (Nat × String)) (uid : String) :
    ∀ (rs : List (List JSVal)) (idx : Nat) (st : RowState),
      ∃ t, (processRowsAux H hIdx imap uid st idx rs).errors = st.errors ++ t := by
  intro rs
  induction rs with
  | nil => intro idx st; exact ⟨[], by simp [processRowsAux]⟩
  | cons r rest ih =>
      intro idx st
      obtain ⟨t1, h1⟩ := processRow_errors_mono H hIdx imap uid st idx r
      obtain ⟨t2, h2⟩ := ih (idx + 1) (processRow H hIdx imap uid st idx r)
      refine ⟨t1 ++ t2, ?_⟩
      simp only [processRowsAux]
      rw [h2, h1, List.append_assoc]

/-- Entries of `processed` survive the rest of the loop. -/
theorem mem_processed_processRowsAux (H : List String) (hIdx : Nat)
    (imap : List (Nat × String)) (uid : String) (rs : List (List JSVal)) (idx : Nat)
    (st : RowState) (x : Staged) (hx : x ∈ st.processed) :
    x ∈ (processRowsAux H hIdx imap uid st idx rs).processed := by
  obtain ⟨t, ht⟩ := processRowsAux_processed_mono H hIdx imap uid rs idx st
  rw [ht]
  exact List.mem_append_left _ hx

/-- Recorded errors survive the rest of the loop. -/
theorem mem_errors_processRowsAux (H : List String) (hIdx : Nat)
    (imap : List (Nat × String)) (uid : String) (rs : List (List JSVal)) (idx : Nat)
    (st : RowState) (m : String) (hm : m ∈ st.errors) :
    m ∈ (processRowsAux H hIdx imap uid st idx rs).errors := by
  obtain ⟨t, ht⟩ := processRowsAux_errors_mono H hIdx imap uid rs idx st
  rw [ht]
  exact List.mem_append_left _ hm

/-- A record found by email carries that email. -/
theorem storeFindByEmail_email (l : List Candidate) (e : JSVal) (a : Candidate)
    (h : storeFindByEmail l e = some a) : a.email = e := by
  have := List.find?_some h
  simpa using this

/-- A record found by email is in the store. -/
theorem storeFindByEmail_mem (l : List Candidate) (e : JSVal) (a : Candidate)
    (h : storeFindByEmail l e = some a) : a ∈ l :=
  List.mem_of_find?_eq_some h

/-- Email lookup skips a prefix in which the email does not occur. -/
theorem storeFindByEmail_append_none (l1 l2 : List Candidate) (e : JSVal)
    (h : storeFindByEmail l1 e = none) :
    storeFindByEmail (l1 ++ l2) e = storeFindByEmail l2 e := by
  unfold storeFindByEmail at *
  rw [List.find?_append, h]
  rfl

/-- Email lookup resolves within a prefix in which the email occurs. -/
theorem storeFindByEmail_append_some (l1 l2 : List Candidate) (e : JSVal) (a : Candidate)
    (h : storeFindByEmail l1 e = some a) :
    storeFindByEmail (l1 ++ l2) e = some a := by
  unfold storeFindByEmail at *
  rw [List.find?_append, h]
  rfl

/-- In a store with pairwise-distinct emails, lookup returns the unique
record with the requested email. -/
theorem storeFindByEmail_unique (l : List Candidate) (e : JSVal) (a : Candidate)
    (hnd : (l.map Candidate.email).Nodup) (ha : a ∈ l) (he : a.email = e) :
    storeFindByEmail l e = some a := by
  induction l with
  | nil => cases ha
  | cons b bs ih =>
      rw [List.map_cons, List.nodup_cons] at hnd
      rcases List.mem_cons.mp ha with rfl | hmem
      · have hbe : decide (a.email = e) = true := by simp [he]
        unfold storeFindByEmail
        rw [List.find?_cons, hbe]
      · have hbe : decide (b.email = e) = false := by
          simp only [decide_eq_false_iff_not]
          intro hbe
          exact hnd.1 (by rw [hbe, ← he]; exact List.mem_map_of_mem _ hmem)
        unfold storeFindByEmail at *
        rw [List.find?_cons, hbe]
        exact ih hnd.2 hmem

/-- When no email of the staged entries occurs in the initial store, the
row loop never takes the merge branch, so the store is left untouched. -/
theorem processRowsAux_store_const (H : List String) (hIdx : Nat)
    (imap : List (Nat × String)) (uid : String) (s0 : List Candidate) :
    ∀ (rs : List (List JSVal)) (idx : Nat) (st1 : RowState),
      st1.store = s0 →
      (∀ c ∈ (processRowsAux H hIdx imap uid st1 idx rs).processed.map stagedToRecord,
        storeFindByEmail s0 c.email = none) →
      (processRowsAux H hIdx imap uid st1 idx rs).store = s0 := by
  intro rs
  induction rs with
  | nil =>
      intro idx st1 h1 _
      simpa [processRowsAux] using h1
  | cons r rest ih =>
      intro idx st1 h1 hH
      simp only [processRowsAux] at hH ⊢
      have hstep : (processRow H hIdx imap uid st1 idx r).store = s0 := by
        by_cases hlen : r.length = 0
        · rw [processRow_blank H hIdx imap uid st1 idx r hlen]
          exact h1
        · cases hval : (!jsTruthy (draftOfRow H r).name ||
              (!jsTruthy (draftOfRow H r).email && !jsTruthy (draftOfRow H r).phone)) with
          | true =>
              rw [(processRow_val_branch H hIdx imap uid st1 idx r hval).1]
              exact h1
          | false =>
              cases hfind : (if jsTruthy (draftOfRow H r).email then
                  storeFindByEmail st1.store (draftOfRow H r).email else none) with
              | none =>
                  rw [processRow_insert H hIdx imap uid st1 idx r hlen hval hfind]
                  exact h1
              | some existing =>
                  have hem : jsTruthy (draftOfRow H r).email = true := by
                    by_contra hem
                    rw [if_neg hem] at hfind
                    exact Option.noConfusion hfind
                  have hf1 : storeFindByEmail s0 (draftOfRow H r).email = some existing := by
                    rw [if_pos hem] at hfind
                    rw [← h1]
                    exact hfind
                  rw [processRow_dup H hIdx imap uid st1 idx r existing hlen hval hfind]
                  cases hlk : lookupAssoc imap (hIdx + 1 + idx) with
                  | none => exact h1
                  | some p =>
                      by_cases hcond : p ≠ "" ∧ existing.photo = ""
                      · exfalso
                        have e1 : processRow H hIdx imap uid st1 idx r =
                            { store := storeSetPhoto st1.store (draftOfRow H r).email p,
                              processed := st1.processed ++ [Staged.mergedRec existing p],
                              errors := st1.errors } := by
                          rw [processRow_dup H hIdx imap uid st1 idx r existing hlen hval hfind,
                            hlk]
                          dsimp only
                          rw [if_pos hcond]
                        have hmm : Staged.mergedRec existing p ∈
                            (processRowsAux H hIdx imap uid (processRow H hIdx imap uid st1 idx r)
                              (idx + 1) rest).processed := by
                          apply mem_processed_processRowsAux
                          rw [e1]
                          simp
                        have hB := hH (stagedToRecord (Staged.mergedRec existing p))
                          (List.mem_map_of_mem _ hmm)
                        have hB' : storeFindByEmail s0 existing.email = none := hB
                        rw [storeFindByEmail_email s0 (draftOfRow H r).email existing hf1] at hB'
                        rw [hB'] at hf1
                        exact Option.noConfusion hf1
                      · dsimp only
                        rw [if_neg hcond]
                        exact h1
      exact ih (idx + 1) _ hstep hH

/-- Simulation of a second pass of the row loop over the same data rows:
with the second pass starting from the store extended by the first pass's
batch (whose emails are truthy, absent from the initial store, and pairwise
distinct), the second pass changes nothing, stages nothing, and records an
already-exists error for every entry the first pass staged. -/
theorem reupload_aux (H : List String) (hIdx : Nat) (imap : List (Nat × String))
    (uid : String) (s0 : List Candidate) :
    ∀ (rs : List (List JSVal)) (idx : Nat) (st1 st2 : RowState),
      st1.store = s0 →
      st2.processed = [] →
      st2.store = s0 ++ (processRowsAux H hIdx imap uid st1 idx rs).processed.map stagedToRecord →
      (∀ c ∈ (processRowsAux H hIdx imap uid st1 idx rs).processed.map stagedToRecord,
        jsTruthy c.email = true ∧ storeFindByEmail s0 c.email = none) →
      (((processRowsAux H hIdx imap uid st1 idx rs).processed.map stagedToRecord).map
        Candidate.email).Nodup →
      (processRowsAux H hIdx imap uid st2 idx rs).store = st2.store ∧
      (processRowsAux H hIdx imap uid st2 idx rs).processed = [] ∧
      ∀ x ∈ (processRowsAux H hIdx imap uid st1 idx rs).processed,
        x ∈ st1.processed ∨
          existsMsg (stagedToRecord x).email ∈
            (processRowsAux H hIdx imap uid st2 idx rs).errors := by
  intro rs
  induction rs with
  | nil =>
      intro idx st1 st2 h1s h2p h2s hH1 hH2
      simp only [processRowsAux]
      exact ⟨by trivial, h2p, fun x hx => Or.inl hx⟩
  | cons r rest ih =>
      intro idx st1 st2 h1s h2p h2s hH1 hH2
      simp only [processRowsAux] at h2s hH1 hH2 ⊢
      by_cases hlen : r.length = 0
      · rw [processRow_blank H hIdx imap uid st1 idx r hlen] at h2s hH1 hH2 ⊢
        rw [processRow_blank H hIdx imap uid st2 idx r hlen]
        exact ih (idx + 1) st1 st2 h1s h2p h2s hH1 hH2
      · cases hval : (!jsTruthy (draftOfRow H r).name ||
            (!jsTruthy (draftOfRow H r).email && !jsTruthy (draftOfRow H r).phone)) with
        | true =>
            obtain ⟨hv1s, hv1p, t1, hv1e⟩ := processRow_val_branch H hIdx imap uid st1 idx r hval
            obtain ⟨hv2s, hv2p, t2, hv2e⟩ := processRow_val_branch H hIdx imap uid st2 idx r hval
            have ihh := ih (idx + 1) (processRow H hIdx imap uid st1 idx r)
                (processRow H hIdx imap uid st2 idx r)
                (by rw [hv1s]; exact h1s) (by rw [hv2p]; exact h2p)
                (by rw [hv2s]; exact h2s) hH1 hH2
            refine ⟨by rw [ihh.1, hv2s], ihh.2.1, ?_⟩
            intro x hx
            rcases ihh.2.2 x hx with hmem | herr
            · rw [hv1p] at hmem
              exact Or.inl hmem
            · exact Or.inr herr
        | false =>
            cases hfind : (if jsTruthy (draftOfRow H r).email then
                storeFindByEmail st1.store (draftOfRow H r).email else none) with
            | none =>
                have e1 := processRow_insert H hIdx imap uid st1 idx r hlen hval hfind
                have hmemc : Staged.newRec (mkCandidate (draftOfRow H r) (hIdx + 1 + idx) imap uid)
                    ∈ (processRowsAux H hIdx imap uid (processRow H hIdx imap uid st1 idx r)
                      (idx + 1) rest).processed := by
                  apply mem_processed_processRowsAux
                  rw [e1]
                  simp
                have hcB := hH1 (stagedToRecord (Staged.newRec
                    (mkCandidate (draftOfRow H r) (hIdx + 1 + idx) imap uid)))
                  (List.mem_map_of_mem _ hmemc)
                have hem : jsTruthy (draftOfRow H r).email = true := hcB.1
                have hfs0 : storeFindByEmail s0 (draftOfRow H r).email = none := hcB.2
                have hmemB : mkCandidate (draftOfRow H r) (hIdx + 1 + idx) imap uid ∈
                    (processRowsAux H hIdx imap uid (processRow H hIdx imap uid st1 idx r)
                      (idx + 1) rest).processed.map stagedToRecord :=
                  List.mem_map_of_mem _ hmemc
                have hfind2 : (if jsTruthy (draftOfRow H r).email then
                    storeFindByEmail st2.store (draftOfRow H r).email else none) =
                    some (mkCandidate (draftOfRow H r) (hIdx + 1 + idx) imap uid) := by
                  rw [if_pos hem, h2s, storeFindByEmail_append_none _ _ _ hfs0]
                  exact storeFindByEmail_unique _ _ _ hH2 hmemB rfl
                have e2 : processRow H hIdx imap uid st2 idx r =
                    { st2 with errors := st2.errors ++ [existsMsg (draftOfRow H r).email] } := by
                  rw [processRow_dup H hIdx imap uid st2 idx r _ hlen hval hfind2]
                  cases hlk : lookupAssoc imap (hIdx + 1 + idx) with
                  | none => rfl
                  | some p =>
                      dsimp only
                      rw [if_neg]
                      rintro ⟨hpne, hpe⟩
                      have hphoto : (mkCandidate (draftOfRow H r)
                          (hIdx + 1 + idx) imap uid).photo = p := by
                        simp [mkCandidate, hlk]
                      rw [hphoto] at hpe
                      exact hpne hpe
                have ihh := ih (idx + 1) (processRow H hIdx imap uid st1 idx r)
                    (processRow H hIdx imap uid st2 idx r)
                    (by rw [e1]; exact h1s) (by rw [e2]; exact h2p)
                    (by rw [e2]; exact h2s) hH1 hH2
                refine ⟨by rw [ihh.1, e2], ihh.2.1, ?_⟩
                intro x hx
                rcases ihh.2.2 x hx with hmem | herr
                · rw [e1] at hmem
                  rcases List.mem_append.mp hmem with h1 | h1
                  · exact Or.inl h1
                  · simp only [List.mem_singleton] at h1
                    subst h1
                    right
                    apply mem_errors_processRowsAux
                    rw [e2]
                    exact List.mem_append_right _ (List.mem_singleton.mpr rfl)
                · exact Or.inr herr
            | some existing =>
                have hem : jsTruthy (draftOfRow H r).email = true := by
                  by_contra hem
                  rw [if_neg hem] at hfind
                  exact Option.noConfusion hfind
                have hf1 : storeFindByEmail s0 (draftOfRow H r).email = some existing := by
                  rw [if_pos hem] at hfind
                  rw [← h1s]
                  exact hfind
                have hfind2 : (if jsTruthy (draftOfRow H r).email then
                    storeFindByEmail st2.store (draftOfRow H r).email else none) =
                    some existing := by
                  rw [if_pos hem, h2s, storeFindByEmail_append_some _ _ _ _ hf1]
                cases hlk : lookupAssoc imap (hIdx + 1 + idx) with
                | some p =>
                    by_cases hcond : p ≠ "" ∧ existing.photo = ""
                    · exfalso
                      have e1 : processRow H hIdx imap uid st1 idx r =
                          { store := storeSetPhoto st1.store (draftOfRow H r).email p,
                            processed := st1.processed ++ [Staged.mergedRec existing p],
                            errors := st1.errors } := by
                        rw [processRow_dup H hIdx imap uid st1 idx r existing hlen hval hfind,
                          hlk]
                        dsimp only
                        rw [if_pos hcond]
                      have hmm : Staged.mergedRec existing p ∈
                          (processRowsAux H hIdx imap uid (processRow H hIdx imap uid st1 idx r)
                            (idx + 1) rest).processed := by
                        apply mem_processed_processRowsAux
                        rw [e1]
                        simp
                      have hB := hH1 (stagedToRecord (Staged.mergedRec existing p))
                        (List.mem_map_of_mem _ hmm)
                      have hB' : storeFindByEmail s0 existing.email = none := hB.2
                      rw [storeFindByEmail_email s0 (draftOfRow H r).email existing hf1] at hB'
                      rw [hB'] at hf1
                      exact Option.noConfusion hf1
                    · have e1 : processRow H hIdx imap uid st1 idx r =
                          { st1 with errors := st1.errors ++ [existsMsg (draftOfRow H r).email] } := by
                        rw [processRow_dup H hIdx imap uid st1 idx r existing hlen hval hfind,
                          hlk]
                        dsimp only
                        rw [if_neg hcond]
                      have e2 : processRow H hIdx imap uid st2 idx r =
                          { st2 with errors := st2.errors ++ [existsMsg (draftOfRow H r).email] } := by
                        rw [processRow_dup H hIdx imap uid st2 idx r existing hlen hval hfind2,
                          hlk]
                        dsimp only
                        rw [if_neg hcond]
                      have ihh := ih (idx + 1) (processRow H hIdx imap uid st1 idx r)
                          (processRow H hIdx imap uid st2 idx r)
                          (by rw [e1]; exact h1s) (by rw [e2]; exact h2p)
                          (by rw [e2]; exact h2s) hH1 hH2
                      refine ⟨by rw [ihh.1, e2], ihh.2.1, ?_⟩
                      intro x hx
                      rcases ihh.2.2 x hx with hmem | herr
                      · rw [e1] at hmem
                        exact Or.inl hmem
                      · exact Or.inr herr
                | none =>
                    have e1 : processRow H hIdx imap uid st1 idx r =
                        { st1 with errors := st1.errors ++ [existsMsg (draftOfRow H r).email] } := by
                      rw [processRow_dup H hIdx imap uid st1 idx r existing hlen hval hfind, hlk]
                    have e2 : processRow H hIdx imap uid st2 idx r =
                        { st2 with errors := st2.errors ++ [existsMsg (draftOfRow H r).email] } := by
                      rw [processRow_dup H hIdx imap uid st2 idx r existing hlen hval hfind2, hlk]
                    have ihh := ih (idx + 1) (processRow H hIdx imap uid st1 idx r)
                        (processRow H hIdx imap uid st2 idx r)
                        (by rw [e1]; exact h1s) (by rw [e2]; exact h2p)
                        (by rw [e2]; exact h2s) hH1 hH2
                    refine ⟨by rw [ihh.1, e2], ihh.2.1, ?_⟩
                    intro x hx
                    rcases ihh.2.2 x hx with hmem | herr
                    · rw [e1] at hmem
                      exact Or.inl hmem
                    · exact Or.inr herr

/-- C2 amended: re-uploading the same workbook is idempotent for
email-keyed rows: if every record the first upload inserts has a truthy
email that does not occur in the initial store and those emails are pairwise
distinct, then the second upload inserts nothing, leaves the store exactly
as the first upload left it, reports `added = 0`, and reports an
"already exists" skip for every record the first upload inserted.  (Without
the email conditions the property fails: see the counterexample.) -/
theorem reuploadIdempotentForEmailKeyedRows (inp : UploadInput)
    (hff : inp.insertFails = false)
    (hH1 : ∀ c ∈ (candidatesUpload inp).insertedBatch,
      jsTruthy c.email = true ∧ storeFindByEmail inp.store c.email = none)
    (hH2 : ((candidatesUpload inp).insertedBatch.map Candidate.email).Nodup) :
    (candidatesUpload { inp with store := (candidatesUpload inp).store }).insertedBatch = [] ∧
    (candidatesUpload { inp with store := (candidatesUpload inp).store }).store =
      (candidatesUpload inp).store ∧
    addedOf (candidatesUpload { inp with store := (candidatesUpload inp).store }).response = 0 ∧
    ∀ c ∈ (candidatesUpload inp).insertedBatch,
      existsMsg c.email ∈ errorsOf
        (candidatesUpload { inp with store := (candidatesUpload inp).store }).response := by
  obtain ⟨rows, media, s0, uid, ifl⟩ := inp
  simp only at hff
  subst hff
  cases hh : findHeaderRow rows with
  | none =>
      simp only [candidatesUpload, hh] at hH1 hH2 ⊢
      exact ⟨by trivial, by trivial, by trivial, by simp⟩
  | some v =>
      obtain ⟨hIdx, Hs⟩ := v
      simp only [candidatesUpload, hh, Bool.false_eq_true, if_false] at hH1 hH2 ⊢
      by_cases hpos : 0 < (processRowsAux Hs hIdx (extractImages media).imageMap uid
          { store := s0, processed := [], errors := [] } 0 (rows.drop (hIdx + 1))).processed.length
      · rw [if_pos hpos] at hH1 hH2 ⊢
        dsimp only at hH1 hH2 ⊢
        have hst : (processRowsAux Hs hIdx (extractImages media).imageMap uid
            { store := s0, processed := [], errors := [] } 0 (rows.drop (hIdx + 1))).store = s0 :=
          processRowsAux_store_const Hs hIdx (extractImages media).imageMap uid s0
            (rows.drop (hIdx + 1)) 0 { store := s0, processed := [], errors := [] } rfl
            (fun c hc => (hH1 c hc).2)
        have hmain := reupload_aux Hs hIdx (extractImages media).imageMap uid s0
            (rows.drop (hIdx + 1)) 0 { store := s0, processed := [], errors := [] }
            { store := (processRowsAux Hs hIdx (extractImages media).imageMap uid
                          { store := s0, processed := [], errors := [] } 0
                          (rows.drop (hIdx + 1))).store ++
                        (processRowsAux Hs hIdx (extractImages media).imageMap uid
                          { store := s0, processed := [], errors := [] } 0
                          (rows.drop (hIdx + 1))).processed.map stagedToRecord,
              processed := [], errors := [] }
            rfl rfl (by rw [hst]) hH1 hH2
        have hlen2 : ¬ 0 < (processRowsAux Hs hIdx (extractImages media).imageMap uid
            { store := (processRowsAux Hs hIdx (extractImages media).imageMap uid
                          { store := s0, processed := [], errors := [] } 0
                          (rows.drop (hIdx + 1))).store ++
                        (processRowsAux Hs hIdx (extractImages media).imageMap uid
                          { store := s0, processed := [], errors := [] } 0
                          (rows.drop (hIdx + 1))).processed.map stagedToRecord,
              processed := [], errors := [] } 0 (rows.drop (hIdx + 1))).processed.length := by
          rw [hmain.2.1]
          simp
        rw [if_neg hlen2]
        refine ⟨rfl, hmain.1, rfl, ?_⟩
        intro c hc
        obtain ⟨x, hx, rfl⟩ := List.mem_map.mp hc
        rcases hmain.2.2 x hx with h | h
        · simp at h
        · exact h
      · have hnil : (processRowsAux Hs hIdx (extractImages media).imageMap uid
            { store := s0, processed := [], errors := [] } 0
            (rows.drop (hIdx + 1))).processed = [] :=
          List.length_eq_zero.mp (by omega)
        rw [if_neg hpos] at hH1 hH2 ⊢
        dsimp only at hH1 hH2 ⊢
        have hst : (processRowsAux Hs hIdx (extractImages media).imageMap uid
            { store := s0, processed := [], errors := [] } 0 (rows.drop (hIdx + 1))).store = s0 :=
          processRowsAux_store_const Hs hIdx (extractImages media).imageMap uid s0
            (rows.drop (hIdx + 1)) 0 { store := s0, processed := [], errors := [] } rfl
            (fun c hc => by rw [hnil] at hc; simp at hc)
        have heq : ({ store := (processRowsAux Hs hIdx (extractImages media).imageMap uid
                                  { store := s0, processed := [], errors := [] } 0
                                  (rows.drop (hIdx + 1))).store,
                      processed := [], errors := [] } : RowState) =
            { store := s0, processed := [], errors := [] } := by
          rw [hst]
        rw [heq, if_neg hpos]
        exact ⟨rfl, rfl, rfl, by simp⟩

/-- C2 counterexample: a workbook whose only data row has a name and a phone
but no email is re-inserted by every upload: the second pass of the same
workbook inserts one new record again (`added = 1`) and the store ends up
with two copies — not zero new inserts as the claim states. -/
theorem reuploadNotIdempotentPhoneOnly :
    (candidatesUpload c2PhoneInput).insertedBatch.length = 1 ∧
    (candidatesUpload { c2PhoneInput with
        store := (candidatesUpload c2PhoneInput).store }).insertedBatch.length = 1 ∧
    addedOf (candidatesUpload { c2PhoneInput with
        store := (candidatesUpload c2PhoneInput).store }).response = 1 ∧
    (candidatesUpload { c2PhoneInput with
        store := (candidatesUpload c2PhoneInput).store }).store.length = 2 := by
  decide

/-- Witness for C2 (amended) at a one-row workbook keyed by email. -/
theorem reuploadIdempotentForEmailKeyedRowsWitness :
    ((candidatesUpload c2MailInput).insertedBatch.map Candidate.email =
      [JSVal.str "a@b.cd"]) ∧
    (candidatesUpload { c2MailInput with
        store := (candidatesUpload c2MailInput).store }).insertedBatch = [] ∧
    addedOf (candidatesUpload { c2MailInput with
        store := (candidatesUpload c2MailInput).store }).response = 0 ∧
    existsMsg (JSVal.str "a@b.cd") ∈ errorsOf (candidatesUpload { c2MailInput with
        store := (candidatesUpload c2MailInput).store }).response := by
  have h := reuploadIdempotentForEmailKeyedRows c2MailInput rfl (by decide) (by decide)
  refine ⟨by decide, h.1, h.2.2.1, ?_⟩
  have h4 := h.2.2.2
    { name := JSVal.str "Alice", email := JSVal.str "a@b.cd", phone := "undefined",
      experience_years := 0, previous_experience := [], age := 0, photo := "",
      status := "pending", createdBy := "u", createdAt := 0 }
    (by decide)
  exact h4

